import Mathlib

/-!
Shallow embedding of `folder_to_text` (src/main.rs), a directory-to-text
aggregator.  Paths are modelled as lists of segments, and each segment as the
list of bytes of its name; file contents are lists of bytes.  The functions
below mirror the Rust source function by function.
-/

set_option maxRecDepth 10000

/-- One path segment (component), as the list of bytes of its name (a byte
is a `Nat` below 256; nothing here depends on the bound). -/
abbrev Seg := List Nat

/-- Content classification, from the `content_inspector` crate's `ContentType`
enum (the external dependency used at src/main.rs line 6). -/
inductive ContentType where
  | BINARY
  | UTF_8
  | UTF_8_BOM
  | UTF_16LE
  | UTF_16BE
  | UTF_32LE
  | UTF_32BE
deriving DecidableEq, Repr

/-- Direct translation of `is_text` (src/main.rs lines 151-159): only UTF-8
(with or without BOM) and UTF-16 (either endianness) count as text. -/
def is_text (content_type : ContentType) : Bool :=
  match content_type with
  | .UTF_8 | .UTF_8_BOM | .UTF_16LE | .UTF_16BE => true
  | _ => false

/-- Model of the external `content_inspector::inspect` dependency (not part of
this repository's sources): the buffer is matched against the BOM magic
numbers in order (UTF-32 before UTF-16, since the UTF-32LE BOM extends the
UTF-16LE one), and a buffer with no BOM is `BINARY` exactly when it contains a
zero byte, otherwise `UTF_8`.  In this program the buffer is at most 512
bytes, so any scan-size cap of the crate is immaterial. -/
def inspect (buffer : List Nat) : ContentType :=
  if [0xFF, 0xFE, 0x00, 0x00].isPrefixOf buffer then .UTF_32LE
  else if [0x00, 0x00, 0xFE, 0xFF].isPrefixOf buffer then .UTF_32BE
  else if [0xEF, 0xBB, 0xBF].isPrefixOf buffer then .UTF_8_BOM
  else if [0xFF, 0xFE].isPrefixOf buffer then .UTF_16LE
  else if [0xFE, 0xFF].isPrefixOf buffer then .UTF_16BE
  else if buffer.contains 0 then .BINARY
  else .UTF_8

mutual

/-- Strict UTF-8 validity (RFC 3629: no overlong forms, no surrogates, at
most U+10FFFF), the decoding `fs::read_to_string` performs at
src/main.rs line 108.  The lead byte selects the sequence length and the
allowed range of the first continuation byte; later continuation bytes are
always 0x80-0xBF. -/
def validUtf8 : List Nat → Bool
  | [] => true
  | b :: l =>
    if b ≤ 0x7F then validUtf8 l
    else if 0xC2 ≤ b ∧ b ≤ 0xDF then validUtf8Tail1 0x80 0xBF l
    else if b = 0xE0 then validUtf8Tail2 0xA0 0xBF l
    else if (0xE1 ≤ b ∧ b ≤ 0xEC) ∨ b = 0xEE ∨ b = 0xEF then
      validUtf8Tail2 0x80 0xBF l
    else if b = 0xED then validUtf8Tail2 0x80 0x9F l
    else if b = 0xF0 then validUtf8Tail3 0x90 0xBF l
    else if 0xF1 ≤ b ∧ b ≤ 0xF3 then validUtf8Tail3 0x80 0xBF l
    else if b = 0xF4 then validUtf8Tail3 0x80 0x8F l
    else false

/-- One continuation byte constrained to the range, then the rest of the
stream. -/
def validUtf8Tail1 (lo hi : Nat) : List Nat → Bool
  | c :: l => (decide (lo ≤ c) && decide (c ≤ hi)) && validUtf8 l
  | [] => false

/-- A constrained continuation byte, one ordinary continuation byte, then the
rest of the stream. -/
def validUtf8Tail2 (lo hi : Nat) : List Nat → Bool
  | c :: l => (decide (lo ≤ c) && decide (c ≤ hi)) && validUtf8Tail1 0x80 0xBF l
  | [] => false

/-- A constrained continuation byte, two ordinary continuation bytes, then
the rest of the stream. -/
def validUtf8Tail3 (lo hi : Nat) : List Nat → Bool
  | c :: l => (decide (lo ≤ c) && decide (c ≤ hi)) && validUtf8Tail2 0x80 0xBF l
  | [] => false

end

/-- Model of `fs::read_to_string` (src/main.rs line 108): succeeds exactly on
strictly valid UTF-8, and the resulting string's bytes are the file's bytes. -/
def read_to_string (bytes : List Nat) : Option (List Nat) :=
  if validUtf8 bytes then some bytes else none

/-- The hardcoded exclusion list of `is_excluded` (src/main.rs line 137):
exactly the segment `.git`, as bytes. -/
def excluded_dirs : List Seg := [[46, 103, 105, 116]]

/-- Translation of `is_excluded` (src/main.rs lines 135-148): some component
of the entry's path equals a name in `excluded_dirs`.  (The Rust code compares
after an `OsStr` to `&str` conversion; a name that is not valid UTF-8 never
equals `.git`, so comparing byte lists is equivalent.) -/
def is_excluded (path : List Seg) : Bool :=
  path.any (fun comp => excluded_dirs.contains comp)

/-- Component-wise prefix stripping, as `Path::strip_prefix` at
src/main.rs line 102: succeeds iff `base` is a leading run of `p`'s
components, returning the remainder. -/
def stripPrefixSegs : List Seg → List Seg → Option (List Seg)
  | p, [] => some p
  | [], _ :: _ => none
  | s :: p, b :: base => if s = b then stripPrefixSegs p base else none

/-- The display path of src/main.rs lines 102-105: the path relative to the
current working directory when stripping succeeds, the original path
otherwise. -/
def displayPath (cwd p : List Seg) : List Seg :=
  match stripPrefixSegs p cwd with
  | some r => r
  | none => p

/-- Bytes of `Path::display` for a path given by its components: the
components joined by `/` (byte 47). -/
def pathBytes (p : List Seg) : List Nat :=
  List.intercalate [47] p

/-- Bytes produced by `writeln!(output, "<{}>", relative_path.display())`
(src/main.rs line 117): `<`, the path, `>`, newline. -/
def writeOpenTag (p : List Seg) : List Nat :=
  60 :: pathBytes p ++ [62, 10]

/-- Bytes produced by `writeln!(output, "</{}>\n", relative_path.display())`
(src/main.rs line 125): `<`, `/`, the path, `>`, newline, newline. -/
def writeCloseTag (p : List Seg) : List Nat :=
  60 :: 47 :: pathBytes p ++ [62, 10, 10]

/-- Per-file environment: whether `File::open` succeeds, whether the 512-byte
sample read succeeds, the file's bytes, and whether each of the three
`writeln!` calls to the output file succeeds. -/
structure FileData where
  openOk : Bool
  readOk : Bool
  content : List Nat
  w1 : Bool
  w2 : Bool
  w3 : Bool
deriving DecidableEq, Repr

/-- Observable effect of processing one unit of work: the bytes appended to
the output document, the fully emitted (path, content) blocks, and the number
of diagnostic messages printed to standard error. -/
structure EmitResult where
  written : List Nat
  blocks : List (List Seg × List Nat)
  errs : Nat
deriving DecidableEq, Repr

/-- Translation of `process_file` (src/main.rs lines 77-132).  Open failure,
sample-read failure, decode failure and write failure each print one
diagnostic and abort this file only; a non-text classification skips silently;
otherwise the three writes of lines 117-128 are appended.  (`env::current_dir`
is modelled as the ambient `cwd`; a failed second `writeln!` leaves the open
tag behind, a failed third leaves tag and content, as the source does.) -/
def process_file (cwd : List Seg) (file_path : List Seg) (d : FileData) :
    EmitResult :=
  if d.openOk = false then ⟨[], [], 1⟩
  else if d.readOk = false then ⟨[], [], 1⟩
  else
    let buffer := d.content.take 512
    let content_type := inspect buffer
    if is_text content_type then
      let relative_path := displayPath cwd file_path
      match read_to_string d.content with
      | none => ⟨[], [], 1⟩
      | some content =>
        if d.w1 = false then ⟨[], [], 1⟩
        else if d.w2 = false then ⟨writeOpenTag relative_path, [], 1⟩
        else if d.w3 = false then
          ⟨writeOpenTag relative_path ++ content ++ [10], [], 1⟩
        else
          ⟨writeOpenTag relative_path ++ content ++ [10] ++
              writeCloseTag relative_path,
            [(relative_path, content)], 0⟩
    else ⟨[], [], 0⟩

/-- A node of the directory tree being processed: a regular file together
with its per-file environment, or a directory with named children. -/
inductive FSNode where
  | file (d : FileData)
  | dir (entries : List (Seg × FSNode))

/-- Abstraction of the unspecified order in which the platform's directory
walk yields the children of each directory: a reordering, applicable at every
directory (identified by its path), that only permutes its input.  Two runs of
the program may observe two different reorderings of the same tree. -/
structure Reorder where
  app : (α : Type) → List Seg → List α → List α
  isPerm : ∀ (α : Type) (p : List Seg) (l : List α), List.Perm (app α p l) l

/-- The identity reordering (children in the order they are listed). -/
def idReorder : Reorder :=
  ⟨fun _ _ l => l, fun _ _ _ => List.Perm.refl _⟩

/-- The reversing reordering (children in reversed order). -/
def revReorder : Reorder :=
  ⟨fun _ _ l => l.reverse, fun _ _ l => List.reverse_perm l⟩

mutual

/-- Translation of the `WalkDir` iteration of `process_directory`
(src/main.rs lines 55-59): depth-first enumeration of all entries under (and
including) the root, pruned by `filter_entry(|e| !is_excluded(e))` — an entry
whose path has an excluded component is not yielded, and for a directory its
subtree is not descended into (since exclusion is monotone along descent, the
guard below implements exactly that pruning).  The reordering `r` applies the
run's traversal order at each directory. -/
def walkAll (r : Reorder) (path : List Seg) : FSNode → List (List Seg × FSNode)
  | .file d => if is_excluded path then [] else [(path, .file d)]
  | .dir entries =>
    if is_excluded path then []
    else
      (path, .dir entries) ::
        (r.app _ path (walkAllChildren r path entries)).flatten

/-- The walks of a directory's children (one result list per child, in the
listed order, before the run's reordering is applied). -/
def walkAllChildren (r : Reorder) (path : List Seg) :
    List (Seg × FSNode) → List (List (List Seg × FSNode))
  | [] => []
  | e :: rest => walkAll r (path ++ [e.1]) e.2 :: walkAllChildren r path rest

end

mutual

/-- Decidable equality for tree nodes, by simultaneous recursion with their
entry lists. -/
def fsNodeDecEq : (a b : FSNode) → Decidable (a = b)
  | .file d₁, .file d₂ =>
    match decEq d₁ d₂ with
    | isTrue h => isTrue (by rw [h])
    | isFalse h => isFalse (by intro hh; cases hh; exact h rfl)
  | .file _, .dir _ => isFalse (by intro h; cases h)
  | .dir _, .file _ => isFalse (by intro h; cases h)
  | .dir e₁, .dir e₂ =>
    match fsEntriesDecEq e₁ e₂ with
    | isTrue h => isTrue (by rw [h])
    | isFalse h => isFalse (by intro hh; cases hh; exact h rfl)

/-- Decidable equality for entry lists. -/
def fsEntriesDecEq : (a b : List (Seg × FSNode)) → Decidable (a = b)
  | [], [] => isTrue rfl
  | [], _ :: _ => isFalse (by intro h; cases h)
  | _ :: _, [] => isFalse (by intro h; cases h)
  | (s₁, n₁) :: r₁, (s₂, n₂) :: r₂ =>
    match decEq s₁ s₂ with
    | isFalse h => isFalse (by intro hh; cases hh; exact h rfl)
    | isTrue h₁ =>
      match fsNodeDecEq n₁ n₂ with
      | isFalse h => isFalse (by intro hh; cases hh; exact h rfl)
      | isTrue h₂ =>
        match fsEntriesDecEq r₁ r₂ with
        | isFalse h => isFalse (by intro hh; cases hh; exact h rfl)
        | isTrue h₃ => isTrue (by rw [h₁, h₂, h₃])

end

instance : DecidableEq FSNode := fsNodeDecEq

/-- Combination of the emission effects of a sequence of work units, in the
order they were performed. -/
def combineResults (l : List EmitResult) : EmitResult :=
  ⟨(l.map EmitResult.written).flatten,
    (l.map EmitResult.blocks).flatten,
    (l.map EmitResult.errs).sum⟩

/-- Processing of one entry yielded by the walk (the body of the `for` loop at
src/main.rs lines 55-72): directories are skipped, files go to
`process_file`. -/
def processEntry (cwd : List Seg) : List Seg × FSNode → EmitResult
  | (_, .dir _) => ⟨[], [], 0⟩
  | (p, .file d) => process_file cwd p d

/-- Translation of `process_directory` (src/main.rs lines 53-74): process, in
traversal order, every entry yielded by the pruned walk. -/
def process_directory (cwd : List Seg) (r : Reorder) (dir : List Seg)
    (n : FSNode) : EmitResult :=
  combineResults ((walkAll r dir n).map (processEntry cwd))

/-- What the filesystem resolves one command-line argument to: a missing
path, a regular file, a directory, or something that exists but is neither
(src/main.rs lines 25-45). -/
inductive PathArg where
  | missing
  | file (d : FileData)
  | dir (n : FSNode)
  | other

/-- Processing of one command-line argument (the body of the `for` loop at
src/main.rs lines 22-46): a missing path and a path that is neither file nor
directory are reported and skipped; a directory is walked; a file is processed
directly, with no exclusion check. -/
def processArg (cwd : List Seg) (r : Reorder) : List Seg × PathArg → EmitResult
  | (_, .missing) => ⟨[], [], 1⟩
  | (p, .dir n) => process_directory cwd r p n
  | (p, .file d) => process_file cwd p d
  | (_, .other) => ⟨[], [], 1⟩

/-- Observable outcome of a whole run: the process exit status, whether the
output artifact was created (truncated), whether the usage message was
printed, the bytes of the output document, the emitted blocks, the number of
diagnostics, and whether the final confirmation line was printed. -/
structure RunResult where
  exitCode : Nat
  createdOutput : Bool
  usageShown : Bool
  output : List Nat
  blocks : List (List Seg × List Nat)
  errs : Nat
  finalMessage : Bool
deriving DecidableEq, Repr

/-- Translation of `main` (src/main.rs lines 8-50).  With no arguments the
usage message goes to standard error and the process exits with status 1
before the output file is touched; then `File::create("output.txt")` either
aborts the run with a nonzero status (the `?` at line 19 makes `main` return
the error, which the Rust runtime reports and turns into exit status 1) or
truncates/creates the artifact; then every argument is processed
independently, the confirmation line is printed, and the exit status is 0. -/
def runMain (cwd : List Seg) (r : Reorder) (createOk : Bool)
    (args : List (List Seg × PathArg)) : RunResult :=
  if args.isEmpty then ⟨1, false, true, [], [], 0, false⟩
  else if createOk = false then ⟨1, false, false, [], [], 1, false⟩
  else
    let results := args.map (processArg cwd r)
    let combined := combineResults results
    ⟨0, true, false, combined.written, combined.blocks, combined.errs, true⟩

/-- The per-child walks are the map of the walk over the children. -/
theorem walkAllChildren_eq_map (r : Reorder) (path : List Seg)
    (entries : List (Seg × FSNode)) :
    walkAllChildren r path entries =
      entries.map (fun e => walkAll r (path ++ [e.1]) e.2) := by
  induction entries with
  | nil => rfl
  | cons e rest ih => simp [walkAllChildren, ih]

/-- Unfolding equation for `walkAll` on a file node. -/
theorem walkAll_file (r : Reorder) (path : List Seg) (d : FileData) :
    walkAll r path (.file d) =
      if is_excluded path then [] else [(path, .file d)] := rfl

/-- Unfolding equation for `walkAll` on a directory node, still phrased with
`walkAllChildren`. -/
theorem walkAll_dir_raw (r : Reorder) (path : List Seg)
    (entries : List (Seg × FSNode)) :
    walkAll r path (.dir entries) =
      if is_excluded path then []
      else
        (path, FSNode.dir entries) ::
          (r.app _ path (walkAllChildren r path entries)).flatten := rfl

/-- Unfolding equation for `walkAll` on a directory node. -/
theorem walkAll_dir (r : Reorder) (path : List Seg)
    (entries : List (Seg × FSNode)) :
    walkAll r path (.dir entries) =
      if is_excluded path then []
      else
        (path, FSNode.dir entries) ::
          (r.app _ path
              (entries.map (fun e => walkAll r (path ++ [e.1]) e.2))).flatten := by
  rw [walkAll_dir_raw, walkAllChildren_eq_map]

/-- Characterization of component-wise prefix stripping: it succeeds with
remainder `r` exactly when the path is the base followed by `r`. -/
theorem stripPrefixSegs_eq_some_iff (base p r : List Seg) :
    stripPrefixSegs p base = some r ↔ p = base ++ r := by
  induction base generalizing p with
  | nil => simp [stripPrefixSegs, eq_comm]
  | cons b bs ih =>
    cases p with
    | nil => simp [stripPrefixSegs]
    | cons s ps =>
      by_cases h : s = b
      · subst h
        simp [stripPrefixSegs, ih]
      · simp [stripPrefixSegs, h]

/-- The display path is the path relative to `cwd` when `cwd` is a leading
run of its components, and the original path otherwise. -/
theorem displayPath_eq (cwd p : List Seg) :
    displayPath cwd p = if cwd.isPrefixOf p then p.drop cwd.length else p := by
  unfold displayPath
  cases h : stripPrefixSegs p cwd with
  | some r =>
    rw [stripPrefixSegs_eq_some_iff] at h
    subst h
    rw [if_pos (List.isPrefixOf_iff_prefix.mpr ⟨r, rfl⟩), List.drop_left]
  | none =>
    rw [if_neg]
    intro hpre
    obtain ⟨t, ht⟩ := List.isPrefixOf_iff_prefix.mp hpre
    have h2 := (stripPrefixSegs_eq_some_iff cwd p t).mpr ht.symm
    rw [h] at h2
    cases h2

/-- C1: for every input file whose 512-byte sample is classified as textual
and whose full contents decode as a string, `process_file` appends exactly one
block made of three writes in order, each terminated by a line break: the
opening tag of the display path, the file content verbatim with no escaping,
and the closing tag followed by one blank line; the bytes between the tags are
the file's bytes unchanged except for the line break added by the wrapping
write. -/
theorem C1_text_file_emits_one_block (cwd file_path : List Seg) (d : FileData)
    (hopen : d.openOk = true) (hread : d.readOk = true)
    (hw1 : d.w1 = true) (hw2 : d.w2 = true) (hw3 : d.w3 = true)
    (htext : is_text (inspect (d.content.take 512)) = true)
    (hdecode : validUtf8 d.content = true) :
    process_file cwd file_path d =
      ⟨writeOpenTag (displayPath cwd file_path) ++ (d.content ++ [10]) ++
          writeCloseTag (displayPath cwd file_path),
        [(displayPath cwd file_path, d.content)], 0⟩ := by
  simp [process_file, hopen, hread, hw1, hw2, hw3, htext, read_to_string,
    hdecode]

/-- Closed witness for C1: a two-byte UTF-8 file named by a one-segment path
is emitted as one block with its bytes unchanged between the tags. -/
theorem C1_text_file_emits_one_block_witness :
    process_file [] [[97]] ⟨true, true, [104, 105], true, true, true⟩ =
      ⟨writeOpenTag (displayPath [] [[97]]) ++ ([104, 105] ++ [10]) ++
          writeCloseTag (displayPath [] [[97]]),
        [(displayPath [] [[97]], [104, 105])], 0⟩ :=
  C1_text_file_emits_one_block [] [[97]]
    ⟨true, true, [104, 105], true, true, true⟩
    rfl rfl rfl rfl rfl (by decide) (by decide)

/-- C2: the classification accepts exactly UTF-8 (with or without byte-order
mark), UTF-16LE and UTF-16BE as textual, and a sampled file with any other
classification is skipped with no output written and no diagnostic printed. -/
theorem C2_accepted_classifications (cwd p : List Seg) (d : FileData) :
    (∀ ct, is_text ct = true ↔
      (ct = ContentType.UTF_8 ∨ ct = ContentType.UTF_8_BOM ∨
        ct = ContentType.UTF_16LE ∨ ct = ContentType.UTF_16BE)) ∧
    (d.openOk = true → d.readOk = true →
      is_text (inspect (d.content.take 512)) = false →
      process_file cwd p d = ⟨[], [], 0⟩) := by
  refine ⟨fun ct => by cases ct <;> simp [is_text], fun h1 h2 h3 => ?_⟩
  simp [process_file, h1, h2, h3]

/-- Closed witness for C2: a readable file starting with a zero byte is
classified as binary and contributes neither output nor a diagnostic. -/
theorem C2_accepted_classifications_witness :
    is_text (inspect (List.take 512 [0, 1])) = false ∧
    process_file [] [[97]] ⟨true, true, [0, 1], true, true, true⟩ =
      ⟨[], [], 0⟩ :=
  ⟨by decide,
    (C2_accepted_classifications [] [[97]]
      ⟨true, true, [0, 1], true, true, true⟩).2 rfl rfl (by decide)⟩

/-- C6: a run with zero path arguments prints the usage message to diagnostic
output and exits with status 1, and the output artifact is neither created
nor modified. -/
theorem C6_no_args_usage (cwd : List Seg) (r : Reorder) (createOk : Bool) :
    runMain cwd r createOk [] = ⟨1, false, true, [], [], 0, false⟩ := by
  simp [runMain]

/-- C7: the display path written into the tags of an emitted file is the
file's path relative to the current working directory when the latter's
components lead the former's, and the original path unchanged otherwise. -/
theorem C7_display_path (cwd p : List Seg) (d : FileData)
    (hopen : d.openOk = true) (hread : d.readOk = true)
    (hw1 : d.w1 = true) (hw2 : d.w2 = true) (hw3 : d.w3 = true)
    (htext : is_text (inspect (d.content.take 512)) = true)
    (hdecode : validUtf8 d.content = true) :
    (process_file cwd p d).blocks =
      [(if cwd.isPrefixOf p then p.drop cwd.length else p, d.content)] := by
  rw [C1_text_file_emits_one_block cwd p d hopen hread hw1 hw2 hw3 htext
    hdecode, ← displayPath_eq]

/-- Closed witness for C7: a file under the working directory is labelled by
its relative path. -/
theorem C7_display_path_witness :
    (process_file [[119]] [[119], [97]]
        ⟨true, true, [104], true, true, true⟩).blocks =
      [(if List.isPrefixOf [[119]] [[119], [97]] then
          List.drop (List.length [[119]]) [[119], [97]]
        else [[119], [97]], [104])] :=
  C7_display_path [[119]] [[119], [97]] ⟨true, true, [104], true, true, true⟩
    rfl rfl rfl rfl rfl (by decide) (by decide)

/-- A byte sequence beginning with a byte at or above 0xF5 is never valid
UTF-8. -/
theorem validUtf8_cons_high (b : Nat) (cs : List Nat) (hb : 0xF5 ≤ b) :
    validUtf8 (b :: cs) = false := by
  simp only [validUtf8]
  split_ifs with h1 h2 h3 h4 h5 h6 h7 h8 <;> first | rfl | (exfalso; omega)

/-- A buffer classified as UTF-16 (either endianness) starts with byte 0xFF
or 0xFE: in the modelled classifier UTF-16 is only ever detected from a
byte-order mark. -/
theorem inspect_utf16_head (buffer : List Nat)
    (h : inspect buffer = ContentType.UTF_16LE ∨
      inspect buffer = ContentType.UTF_16BE) :
    ∃ b t, buffer = b :: t ∧ (b = 0xFF ∨ b = 0xFE) := by
  unfold inspect at h
  split_ifs at h with h1 h2 h3 h4 h5 h6
  · rcases h with h | h <;> cases h
  · rcases h with h | h <;> cases h
  · rcases h with h | h <;> cases h
  · obtain ⟨t, ht⟩ := List.isPrefixOf_iff_prefix.mp h4
    exact ⟨0xFF, 0xFE :: t, by rw [← ht]; rfl, Or.inl rfl⟩
  · obtain ⟨t, ht⟩ := List.isPrefixOf_iff_prefix.mp h5
    exact ⟨0xFE, 0xFF :: t, by rw [← ht]; rfl, Or.inr rfl⟩
  · rcases h with h | h <;> cases h
  · rcases h with h | h <;> cases h

/-- C9: a non-empty file whose 512-byte sample is classified as UTF-16
(either endianness) always fails the strict full-content decode — such a
sample starts with a byte-order-mark byte 0xFF or 0xFE, which is never valid
UTF-8 — so the file is reported as a decode failure and contributes no bytes
and no block; the classifier's acceptance of UTF-16 never results in
output. -/
theorem C9_utf16_never_emits (cwd p : List Seg) (d : FileData)
    (hopen : d.openOk = true) (hread : d.readOk = true)
    (hne : d.content ≠ [])
    (h16 : inspect (d.content.take 512) = ContentType.UTF_16LE ∨
      inspect (d.content.take 512) = ContentType.UTF_16BE) :
    process_file cwd p d = ⟨[], [], 1⟩ := by
  obtain ⟨b, t, hbt, hb⟩ := inspect_utf16_head _ h16
  have htext : is_text (inspect (d.content.take 512)) = true := by
    rcases h16 with h | h <;> rw [h] <;> rfl
  have hinvalid : validUtf8 d.content = false := by
    cases hc : d.content with
    | nil => exact absurd hc hne
    | cons c cs =>
      rw [hc] at hbt
      have hstep : (c :: cs).take 512 = c :: cs.take 511 := rfl
      rw [hstep] at hbt
      injection hbt with hcb _
      subst hcb
      rcases hb with hb | hb
      · subst hb
        exact validUtf8_cons_high 255 cs (by norm_num)
      · subst hb
        exact validUtf8_cons_high 254 cs (by norm_num)
  simp [process_file, hopen, hread, htext, read_to_string, hinvalid]

/-- Closed witness for C9: a UTF-16LE file with byte-order mark is reported
and skipped with no output. -/
theorem C9_utf16_never_emits_witness :
    process_file [] [[97]]
        ⟨true, true, [255, 254, 104, 0], true, true, true⟩ = ⟨[], [], 1⟩ :=
  C9_utf16_never_emits [] [[97]]
    ⟨true, true, [255, 254, 104, 0], true, true, true⟩
    rfl rfl (by decide) (Or.inl (by decide))

/-- Every block of `process_file` comes from a successfully opened, sampled,
textual and fully decoded file, is labelled with the display path and the
file's bytes, and is that call's only block. -/
theorem process_file_blocks_sub (cwd p : List Seg) (d : FileData)
    (b : List Seg × List Nat) (hb : b ∈ (process_file cwd p d).blocks) :
    d.openOk = true ∧ d.readOk = true ∧
    is_text (inspect (d.content.take 512)) = true ∧
    validUtf8 d.content = true ∧
    b = (displayPath cwd p, d.content) ∧
    (process_file cwd p d).blocks = [b] := by
  cases ho : d.openOk with
  | false => simp [process_file, ho] at hb
  | true =>
  cases hr : d.readOk with
  | false => simp [process_file, ho, hr] at hb
  | true =>
  cases ht : is_text (inspect (d.content.take 512)) with
  | false => simp [process_file, ho, hr, ht] at hb
  | true =>
  cases hv : validUtf8 d.content with
  | false => simp [process_file, ho, hr, ht, read_to_string, hv] at hb
  | true =>
  cases hw1 : d.w1 with
  | false => simp [process_file, ho, hr, ht, read_to_string, hv, hw1] at hb
  | true =>
  cases hw2 : d.w2 with
  | false =>
    simp [process_file, ho, hr, ht, read_to_string, hv, hw1, hw2] at hb
  | true =>
  cases hw3 : d.w3 with
  | false =>
    simp [process_file, ho, hr, ht, read_to_string, hv, hw1, hw2, hw3] at hb
  | true =>
    have hblocks : (process_file cwd p d).blocks =
        [(displayPath cwd p, d.content)] := by
      simp [process_file, ho, hr, ht, read_to_string, hv, hw1, hw2, hw3]
    rw [hblocks] at hb
    rw [List.mem_singleton] at hb
    exact ⟨rfl, rfl, rfl, rfl, hb, by rw [hblocks, hb]⟩

/-- Every block of `process_directory` comes from a file entry yielded by the
walk. -/
theorem process_directory_blocks_origin (cwd : List Seg) (r : Reorder)
    (root : List Seg) (n : FSNode) (b : List Seg × List Nat)
    (hb : b ∈ (process_directory cwd r root n).blocks) :
    ∃ q d, (q, FSNode.file d) ∈ walkAll r root n ∧
      b ∈ (process_file cwd q d).blocks := by
  unfold process_directory combineResults at hb
  rw [List.mem_flatten] at hb
  obtain ⟨bl, hbl, hbbl⟩ := hb
  rw [List.mem_map] at hbl
  obtain ⟨res, hres, hresbl⟩ := hbl
  rw [List.mem_map] at hres
  obtain ⟨e, he, hee⟩ := hres
  obtain ⟨q, m⟩ := e
  cases m with
  | file d =>
    refine ⟨q, d, he, ?_⟩
    rw [← hresbl, ← hee] at hbbl
    exact hbbl
  | dir entries =>
    rw [← hresbl, ← hee] at hbbl
    simp [processEntry] at hbbl

/-- Every block of a whole run comes from some successfully processed textual
file. -/
theorem runMain_blocks_origin (cwd : List Seg) (r : Reorder)
    (args : List (List Seg × PathArg)) (b : List Seg × List Nat)
    (hb : b ∈ (runMain cwd r true args).blocks) :
    ∃ q d, d.openOk = true ∧ d.readOk = true ∧
      is_text (inspect (d.content.take 512)) = true ∧
      validUtf8 d.content = true ∧
      b = (displayPath cwd q, d.content) ∧
      (process_file cwd q d).blocks = [b] := by
  unfold runMain at hb
  by_cases hempty : args.isEmpty
  · simp [hempty] at hb
  · rw [if_neg hempty] at hb
    simp only [Bool.true_eq_false, if_false, combineResults, List.map_map,
      List.mem_flatten] at hb
    obtain ⟨bl, hbl, hbbl⟩ := hb
    rw [List.mem_map] at hbl
    obtain ⟨a, _, habl⟩ := hbl
    obtain ⟨q, arg⟩ := a
    have hbarg : b ∈ (processArg cwd r (q, arg)).blocks := by
      rw [← habl] at hbbl
      exact hbbl
    cases arg with
    | missing => simp [processArg] at hbarg
    | other => simp [processArg] at hbarg
    | file d =>
      obtain ⟨h1, h2, h3, h4, h5, h6⟩ :=
        process_file_blocks_sub cwd q d b hbarg
      exact ⟨q, d, h1, h2, h3, h4, h5, h6⟩
    | dir n =>
      obtain ⟨q2, d, _, hq2⟩ :=
        process_directory_blocks_origin cwd r q n b hbarg
      obtain ⟨h1, h2, h3, h4, h5, h6⟩ :=
        process_file_blocks_sub cwd q2 d b hq2
      exact ⟨q2, d, h1, h2, h3, h4, h5, h6⟩

/-- C3: invariant of the output document — every block of a run corresponds
to exactly one input file that was opened, sampled, classified as textual and
fully decoded (it is that file's only block, labelled with its display path
and verbatim content); a file whose open, sample read, or full decode fails
contributes nothing, not even an empty tag, and the failure is reported by
one diagnostic while processing continues. -/
theorem C3_output_document_invariant (cwd : List Seg) (r : Reorder)
    (args : List (List Seg × PathArg)) (b : List Seg × List Nat)
    (p : List Seg) (d : FileData) :
    (b ∈ (runMain cwd r true args).blocks →
      ∃ q dd, dd.openOk = true ∧ dd.readOk = true ∧
        is_text (inspect (dd.content.take 512)) = true ∧
        validUtf8 dd.content = true ∧
        b = (displayPath cwd q, dd.content) ∧
        (process_file cwd q dd).blocks = [b]) ∧
    ((d.openOk = false ∨ d.readOk = false ∨
        (is_text (inspect (d.content.take 512)) = true ∧
          validUtf8 d.content = false)) →
      process_file cwd p d = ⟨[], [], 1⟩) := by
  refine ⟨runMain_blocks_origin cwd r args b, fun hfail => ?_⟩
  rcases hfail with h | h | ⟨ht, hv⟩
  · simp [process_file, h]
  · cases ho : d.openOk with
    | false => simp [process_file, ho]
    | true => simp [process_file, ho, h]
  · cases ho : d.openOk with
    | false => simp [process_file, ho]
    | true =>
      cases hr : d.readOk with
      | false => simp [process_file, ho, hr]
      | true => simp [process_file, ho, hr, ht, read_to_string, hv]

/-- Closed witness for C3: in a run over one good file, its block originates
from a textual decoded file, and an unopenable file yields one diagnostic and
nothing else. -/
theorem C3_output_document_invariant_witness :
    (∃ q dd, dd.openOk = true ∧ dd.readOk = true ∧
      is_text (inspect (dd.content.take 512)) = true ∧
      validUtf8 dd.content = true ∧
      (([[97]], [104]) : List Seg × List Nat) =
        (displayPath [] q, dd.content) ∧
      (process_file [] q dd).blocks = [([[97]], [104])]) ∧
    process_file [] [[98]] ⟨false, true, [], true, true, true⟩ =
      ⟨[], [], 1⟩ :=
  ⟨(C3_output_document_invariant [] idReorder
      [([[97]], PathArg.file ⟨true, true, [104], true, true, true⟩)]
      ([[97]], [104]) [[98]] ⟨false, true, [], true, true, true⟩).1
      (by decide),
    (C3_output_document_invariant [] idReorder [] ([], []) [[98]]
      ⟨false, true, [], true, true, true⟩).2 (Or.inl rfl)⟩

mutual

/-- No entry yielded by the pruned walk has a path with an excluded
component. -/
theorem walkAll_mem_not_excluded (r : Reorder) (path : List Seg) (n : FSNode)
    (p : List Seg) (m : FSNode) (h : (p, m) ∈ walkAll r path n) :
    is_excluded p = false := by
  cases n with
  | file d =>
    rw [walkAll_file] at h
    by_cases hex : is_excluded path = true
    · rw [if_pos hex] at h
      cases h
    · rw [if_neg hex] at h
      rw [List.mem_singleton] at h
      injection h with h1 h2
      subst h1
      simpa using hex
  | dir entries =>
    rw [walkAll_dir_raw] at h
    by_cases hex : is_excluded path = true
    · rw [if_pos hex] at h
      cases h
    · rw [if_neg hex] at h
      rw [List.mem_cons] at h
      rcases h with h | h
      · injection h with h1 h2
        subst h1
        simpa using hex
      · rw [List.mem_flatten] at h
        obtain ⟨l, hl, hpl⟩ := h
        have hl2 : l ∈ walkAllChildren r path entries :=
          ((r.isPerm _ path _).mem_iff).mp hl
        exact walkAllChildren_mem_not_excluded r path entries p m l hl2 hpl

/-- No entry in any child's walk has a path with an excluded component. -/
theorem walkAllChildren_mem_not_excluded (r : Reorder) (path : List Seg)
    (entries : List (Seg × FSNode)) (p : List Seg) (m : FSNode)
    (l : List (List Seg × FSNode)) (hl : l ∈ walkAllChildren r path entries)
    (hpl : (p, m) ∈ l) : is_excluded p = false := by
  cases entries with
  | nil => simp [walkAllChildren] at hl
  | cons e rest =>
    rw [walkAllChildren] at hl
    rw [List.mem_cons] at hl
    rcases hl with hl | hl
    · subst hl
      exact walkAll_mem_not_excluded r (path ++ [e.1]) e.2 p m hpl
    · exact walkAllChildren_mem_not_excluded r path rest p m l hl hpl

end

/-- C4: for every directory argument, the tree walk excludes any path with a
component case-sensitively equal to a name in the fixed exclusion set
(exactly `.git`): every entry the walk yields has an exclusion-free path, and
every block of `process_directory` comes from a file node (never a directory)
yielded by the walk at an exclusion-free path, at any depth. -/
theorem C4_excluded_subtrees (cwd root : List Seg) (r : Reorder) (n : FSNode)
    (p : List Seg) (m : FSNode) (b : List Seg × List Nat) :
    ((p, m) ∈ walkAll r root n → is_excluded p = false) ∧
    (b ∈ (process_directory cwd r root n).blocks →
      ∃ q d, (q, FSNode.file d) ∈ walkAll r root n ∧ is_excluded q = false ∧
        b = (displayPath cwd q, d.content)) := by
  refine ⟨walkAll_mem_not_excluded r root n p m, fun hb => ?_⟩
  obtain ⟨q, d, hq, hbq⟩ := process_directory_blocks_origin cwd r root n b hb
  obtain ⟨_, _, _, _, hbeq, _⟩ := process_file_blocks_sub cwd q d b hbq
  exact ⟨q, d, hq, walkAll_mem_not_excluded r root n q (.file d) hq, hbeq⟩

/-- Closed witness for C4: in a directory containing a `.git` subtree and one
plain file, the walk yields the plain file at an exclusion-free path and the
only block is the plain file's. -/
theorem C4_excluded_subtrees_witness :
    is_excluded [[97], [98]] = false ∧
    (∃ q d,
      (q, FSNode.file d) ∈
        walkAll idReorder [[97]]
          (FSNode.dir
            [([46, 103, 105, 116],
                FSNode.dir
                  [([99], FSNode.file ⟨true, true, [104], true, true, true⟩)]),
              ([98], FSNode.file ⟨true, true, [104], true, true, true⟩)]) ∧
      is_excluded q = false ∧
      (([[97], [98]], [104]) : List Seg × List Nat) =
        (displayPath [] q, d.content)) :=
  ⟨(C4_excluded_subtrees [] [[97]] idReorder
      (FSNode.dir
        [([46, 103, 105, 116],
            FSNode.dir
              [([99], FSNode.file ⟨true, true, [104], true, true, true⟩)]),
          ([98], FSNode.file ⟨true, true, [104], true, true, true⟩)])
      [[97], [98]] (FSNode.file ⟨true, true, [104], true, true, true⟩)
      ([[97], [98]], [104])).1 (by decide),
    (C4_excluded_subtrees [] [[97]] idReorder
      (FSNode.dir
        [([46, 103, 105, 116],
            FSNode.dir
              [([99], FSNode.file ⟨true, true, [104], true, true, true⟩)]),
          ([98], FSNode.file ⟨true, true, [104], true, true, true⟩)])
      [[97], [98]] (FSNode.file ⟨true, true, [104], true, true, true⟩)
      ([[97], [98]], [104])).2 (by decide)⟩

mutual

/-- The walks of the same tree under two traversal orders are permutations of
each other. -/
theorem walkAll_reorder_perm (r₁ r₂ : Reorder) (path : List Seg)
    (n : FSNode) :
    List.Perm (walkAll r₁ path n) (walkAll r₂ path n) := by
  cases n with
  | file d => rw [walkAll_file, walkAll_file]
  | dir entries =>
    rw [walkAll_dir_raw, walkAll_dir_raw]
    by_cases hex : is_excluded path = true
    · rw [if_pos hex, if_pos hex]
    · rw [if_neg hex, if_neg hex]
      refine List.Perm.cons _ ?_
      have h₁ : List.Perm (r₁.app _ path (walkAllChildren r₁ path entries))
          (walkAllChildren r₁ path entries) := r₁.isPerm _ path _
      have h₂ : List.Perm (r₂.app _ path (walkAllChildren r₂ path entries))
          (walkAllChildren r₂ path entries) := r₂.isPerm _ path _
      have hmid : List.Forall₂ (fun a b => List.Perm a b)
          (walkAllChildren r₁ path entries)
          (walkAllChildren r₂ path entries) :=
        walkAllChildren_reorder_perm r₁ r₂ path entries
      exact (h₁.flatten).trans
        ((List.Perm.flatten_congr hmid).trans h₂.flatten.symm)

/-- The per-child walks under two traversal orders are pointwise permutations
of each other. -/
theorem walkAllChildren_reorder_perm (r₁ r₂ : Reorder) (path : List Seg)
    (entries : List (Seg × FSNode)) :
    List.Forall₂ (fun a b => List.Perm a b)
      (walkAllChildren r₁ path entries) (walkAllChildren r₂ path entries) := by
  cases entries with
  | nil => exact List.Forall₂.nil
  | cons e rest =>
    exact List.Forall₂.cons
      (walkAll_reorder_perm r₁ r₂ (path ++ [e.1]) e.2)
      (walkAllChildren_reorder_perm r₁ r₂ path rest)

end

/-- The blocks of a directory argument under two traversal orders are
permutations of each other. -/
theorem process_directory_blocks_perm (cwd : List Seg) (r₁ r₂ : Reorder)
    (root : List Seg) (n : FSNode) :
    List.Perm (process_directory cwd r₁ root n).blocks
      (process_directory cwd r₂ root n).blocks := by
  have h := walkAll_reorder_perm r₁ r₂ root n
  exact ((h.map (processEntry cwd)).map EmitResult.blocks).flatten

/-- The blocks of a whole run under two traversal orders are permutations of
each other. -/
theorem runMain_blocks_perm (cwd : List Seg) (r₁ r₂ : Reorder)
    (createOk : Bool) (args : List (List Seg × PathArg)) :
    List.Perm (runMain cwd r₁ createOk args).blocks
      (runMain cwd r₂ createOk args).blocks := by
  unfold runMain
  by_cases hempty : args.isEmpty
  · rw [if_pos hempty, if_pos hempty]
  · rw [if_neg hempty, if_neg hempty]
    by_cases hc : createOk = false
    · rw [if_pos hc, if_pos hc]
    · rw [if_neg hc, if_neg hc]
      apply List.Perm.flatten_congr
      simp only [List.map_map]
      rw [List.forall₂_map_left_iff, List.forall₂_map_right_iff,
        List.forall₂_same]
      intro x _
      obtain ⟨p, arg⟩ := x
      cases arg with
      | missing => exact List.Perm.refl _
      | other => exact List.Perm.refl _
      | file d => exact List.Perm.refl _
      | dir nn => exact process_directory_blocks_perm cwd r₁ r₂ p nn

/-- C8: two runs with the same working directory, creation outcome and
argument list over an unchanged tree — differing only in the traversal order
the platform happens to produce — emit block lists that are permutations of
each other, and hence exactly the same set of path/content blocks. -/
theorem C8_same_block_set (cwd : List Seg) (r₁ r₂ : Reorder) (createOk : Bool)
    (args : List (List Seg × PathArg)) :
    List.Perm (runMain cwd r₁ createOk args).blocks
      (runMain cwd r₂ createOk args).blocks ∧
    ∀ b, b ∈ (runMain cwd r₁ createOk args).blocks ↔
      b ∈ (runMain cwd r₂ createOk args).blocks := by
  have h := runMain_blocks_perm cwd r₁ r₂ createOk args
  exact ⟨h, fun b => h.mem_iff⟩

/-- C5 counterexample: a run with one argument — past the initial argument
check — whose output-artifact creation fails exits with status 1, not 0 (the
`?` on `File::create` at src/main.rs line 19 aborts `main` with an error). -/
theorem C5_counterexample :
    (([([[120]], PathArg.missing)] : List (List Seg × PathArg)).isEmpty
        = false) ∧
    (runMain [] idReorder false [([[120]], PathArg.missing)]).exitCode = 1 :=
  ⟨rfl, rfl⟩

/-- C5 as amended: for every run with at least one argument whose output
artifact is successfully created, per-file and per-argument failures never
alter the exit status — the program exits with status 0 and prints the final
confirmation line even if every argument failed. -/
theorem C5_exit_zero_after_create (cwd : List Seg) (r : Reorder)
    (args : List (List Seg × PathArg)) (h : args ≠ []) :
    (runMain cwd r true args).exitCode = 0 ∧
    (runMain cwd r true args).createdOutput = true ∧
    (runMain cwd r true args).finalMessage = true := by
  cases args with
  | nil => exact absurd rfl h
  | cons a rest => exact ⟨rfl, rfl, rfl⟩

/-- Closed witness for amended C5: a run whose only argument is missing still
exits 0 with the confirmation line printed. -/
theorem C5_exit_zero_after_create_witness :
    (runMain [] idReorder true [([[120]], PathArg.missing)]).exitCode = 0 ∧
    (runMain [] idReorder true
        [([[120]], PathArg.missing)]).createdOutput = true ∧
    (runMain [] idReorder true
        [([[120]], PathArg.missing)]).finalMessage = true :=
  C5_exit_zero_after_create [] idReorder [([[120]], PathArg.missing)]
    (by simp)

/-- C10: the exclusion set is consulted only during directory traversal — a
regular file named directly on the command line is processed by
`process_file` with no exclusion check, so a textual decodable file whose
path contains a `.git` segment is still emitted as the run's one block. -/
theorem C10_direct_file_bypasses_exclusion (cwd p : List Seg) (r : Reorder)
    (d : FileData) (hex : is_excluded p = true)
    (hopen : d.openOk = true) (hread : d.readOk = true)
    (hw1 : d.w1 = true) (hw2 : d.w2 = true) (hw3 : d.w3 = true)
    (htext : is_text (inspect (d.content.take 512)) = true)
    (hdecode : validUtf8 d.content = true) :
    (runMain cwd r true [(p, PathArg.file d)]).blocks =
      [(displayPath cwd p, d.content)] := by
  have hrun : (runMain cwd r true [(p, PathArg.file d)]).blocks =
      (process_file cwd p d).blocks := by
    simp [runMain, combineResults, processArg]
  rw [hrun, C1_text_file_emits_one_block cwd p d hopen hread hw1 hw2 hw3
    htext hdecode]

/-- Closed witness for C10: the file `.git/c` named directly as an argument
is emitted even though its path contains the excluded segment. -/
theorem C10_direct_file_bypasses_exclusion_witness :
    (runMain [] idReorder true
        [([[46, 103, 105, 116], [99]],
            PathArg.file ⟨true, true, [104], true, true, true⟩)]).blocks =
      [(displayPath [] [[46, 103, 105, 116], [99]], [104])] :=
  C10_direct_file_bypasses_exclusion [] [[46, 103, 105, 116], [99]] idReorder
    ⟨true, true, [104], true, true, true⟩
    (by decide) rfl rfl rfl rfl rfl (by decide) (by decide)
